import Mathlib

/-!
Verification development for the METEOR declarative CRUD generator.

The JavaScript source is shallowly embedded:
- JS strings of the association-path micro-language are modelled as lists of
  characters (abbreviation JStr), so that the split/join behaviour of the
  source can be reasoned about with list lemmas;
- JS runtime values appearing in request parameters and rows are modelled by
  the inductive JsVal; absent object keys read as JsVal.undefined, exactly as
  property access on a missing key yields undefined in JS;
- thrown ApiRequestError values and runtime TypeError crashes are modelled by
  the Except monad over the error type JsErr;
- the external ORM collaborator (count, findAll, findOne, create, update,
  destroy over a table) is modelled by a list of rows, per the narrow
  collaborator contract of the specification.
-/

set_option maxHeartbeats 1000000

deriving instance DecidableEq for Except

/-! ## JS value model -/

/-- Model of a (flat) JavaScript runtime value as it appears in request
parameters and table rows. Absent keys are read as undefined. -/
inductive JsVal where
  | str (s : String)
  | num (n : Int)
  | boolean (b : Bool)
  | undefined
  | null
deriving DecidableEq, Repr

/-- JS truthiness for the modelled values: empty string, 0, false, undefined
and null are falsy. -/
def JsVal.truthy : JsVal → Bool
  | .str s => s != ""
  | .num n => n != 0
  | .boolean b => b
  | .undefined => false
  | .null => false

/-- JS template-literal stringification of a value. -/
def JsVal.toStr : JsVal → String
  | .str s => s
  | .num n => toString n
  | .boolean b => cond b "true" "false"
  | .undefined => "undefined"
  | .null => "null"

/-- A JS object with (flat) values, as an association list in insertion
order. Objects built by the embedded code never hold duplicate keys. -/
abbrev JsObject := List (String × JsVal)

/-- Property read, obj[k]: undefined when the key is absent. -/
def jsGet (o : JsObject) (k : String) : JsVal :=
  match o.find? (fun p => p.1 == k) with
  | some p => p.2
  | none => .undefined

/-- Property write, obj[k] = v: replaces in place when the key exists
(keeping its position, as JS objects do), otherwise appends. -/
def jsAssign {α : Type} (o : List (String × α)) (k : String) (v : α) :
    List (String × α) :=
  if o.any (fun p => p.1 == k) then
    o.map (fun p => if p.1 == k then (k, v) else p)
  else o ++ [(k, v)]

/-! ## Association graph and the path micro-language

The graph is modelled to the depth the source consults it: the parser in
ParamsBuilder.filterAssociations looks an alias up in the root models
associations, and a sub-alias up in the matched target models associations;
the sub-targets own associations are never read, so sub-targets are opaque
and identified by name. -/

/-- JS strings of the micro-language, as character lists. -/
abbrev JStr := List Char

/-- A sub-association entry of a target model: alias name and (opaque)
target model, identified by its name. -/
structure SubAssoc where
  as : JStr
  target : JStr
deriving DecidableEq, Repr

/-- A target model reachable from the root: its name and its own
association registry. -/
structure TargetModel where
  name : JStr
  associations : List SubAssoc
deriving DecidableEq, Repr

/-- A direct association of the root model. -/
structure RootAssoc where
  as : JStr
  target : TargetModel
deriving DecidableEq, Repr

/-- The root model: name and direct association registry. -/
structure RootModel where
  name : JStr
  associations : List RootAssoc
deriving DecidableEq, Repr

/-- Error model: ApiRequestError (message, HTTP status), a plain thrown
Error, or a runtime TypeError crash such as member access on null. -/
inductive JsErr where
  | api (message : String) (status : Nat)
  | jsError (message : String)
  | typeError (message : String)
deriving DecidableEq, Repr

/-- One node of the resolved inclusion tree at depth two:
source shape is a JS object with keys model and as. -/
structure SubIncludeNode where
  model : JStr
  as : JStr
deriving DecidableEq, Repr

/-- One top-level node of the resolved inclusion tree. The field incl models
the source objects include key, which is absent (none) exactly when the
parsed segment had no dotted part. -/
structure IncludeNode where
  model : TargetModel
  as : JStr
  incl : Option (List SubIncludeNode)
deriving DecidableEq, Repr

/-- The sequential, fail-fast loop the source uses to accumulate results
(push inside a for loop, throwing on the first error). -/
def mapMEx {α β : Type} (f : α → Except JsErr β) : List α → Except JsErr (List β)
  | [] => .ok []
  | x :: xs =>
    match f x with
    | .error e => .error e
    | .ok y =>
      match mapMEx f xs with
      | .error e => .error e
      | .ok ys => .ok (y :: ys)

/-- The getAssociation closure of filterAssociations, at root scope:
find the association whose as equals the requested alias, and return its
target; otherwise throw Invalid association. -/
def getAssociationRoot (associations : List RootAssoc) (as : JStr) :
    Except JsErr TargetModel :=
  match associations.find? (fun a => a.as == as) with
  | some a => .ok a.target
  | none => .error (.api ("Invalid association: " ++ String.mk as) 400)

/-- The getAssociation closure of filterAssociations, at sub scope. -/
def getAssociationSub (associations : List SubAssoc) (as : JStr) :
    Except JsErr JStr :=
  match associations.find? (fun a => a.as == as) with
  | some a => .ok a.target
  | none => .error (.api ("Invalid association: " ++ String.mk as) 400)

/-- Resolution of one sub-association name into a node
(the push of one object with keys model and as inside the inner loop). -/
def resolveSubName (associations : List SubAssoc) (nm : JStr) :
    Except JsErr SubIncludeNode :=
  match getAssociationSub associations nm with
  | .error e => .error e
  | .ok tgt => .ok { model := tgt, as := nm }

/-- One iteration of the outer loop of ParamsBuilder.filterAssociations:
split the segment on a dot; with no dot, look the whole segment up; with a
dot, look up the part before the first dot and resolve the colon-separated
sub-alias list between the first and second dots (parts after a second dot
are ignored by the source). -/
def parseIncludeSegment (directAssociations : List RootAssoc) (seg : JStr) :
    Except JsErr IncludeNode :=
  match seg.splitOn '.' with
  | [] => .error (.typeError "unreachable: split never returns an empty array")
  | [_] =>
    match getAssociationRoot directAssociations seg with
    | .error e => .error e
    | .ok t => .ok { model := t, as := seg, incl := none }
  | a0 :: a1 :: _ =>
    match getAssociationRoot directAssociations a0 with
    | .error e => .error e
    | .ok t =>
      match mapMEx (resolveSubName t.associations) (a1.splitOn ':') with
      | .error e => .error e
      | .ok subs => .ok { model := t, as := a0, incl := some subs }

/-- The core of ParamsBuilder.filterAssociations (and of
FindAllRequest.getAssociationOptions): split the include parameter on commas
and resolve each segment in order. -/
def filterAssociationsList (directAssociations : List RootAssoc)
    (includeParamValue : JStr) : Except JsErr (List IncludeNode) :=
  mapMEx (parseIncludeSegment directAssociations) (includeParamValue.splitOn ',')

/-! ## Client-side include encoding (CrudAPIUtils.getIncludeString) -/

/-- Shape of one element of the client include array: a model name and an
optional list of sub-association names (the source objects include key). -/
structure ClientInclude where
  model : JStr
  incl : Option (List JStr)
deriving DecidableEq, Repr

/-- The string the getIncludeString loop appends for one element: the model
name, then, when the include key is present, a dot and the sub-names joined
by colons. -/
def encodeEntry (e : ClientInclude) : JStr :=
  e.model ++
    (match e.incl with
     | none => []
     | some children => '.' :: List.intercalate [':'] children)

/-- CrudAPIUtils.getIncludeString: throws when an element has a falsy model
property; otherwise appends each element, separated by commas. -/
def CrudAPIUtils.getIncludeString : List ClientInclude → Except JsErr JStr
  | [] => .ok []
  | e :: rest =>
    if e.model.isEmpty then
      .error (.jsError "Include parameter must have a model property.")
    else
      match rest with
      | [] => .ok (encodeEntry e)
      | _ :: _ =>
        match CrudAPIUtils.getIncludeString rest with
        | .error er => .error er
        | .ok r => .ok (encodeEntry e ++ ',' :: r)

/-- Projection of a resolved (server) inclusion node to the client include
shape it corresponds to: on the client a node names its association by
alias, and its children are the sub-alias names. -/
def IncludeNode.toClient (n : IncludeNode) : ClientInclude :=
  { model := n.as, incl := n.incl.map (fun l => l.map (fun s => s.as)) }

/-- Sanity condition on a registry: every alias, at root scope and inside
every targets own registry, is a non-empty name. -/
def aliasesNonEmpty (associations : List RootAssoc) : Bool :=
  associations.all (fun a =>
    !a.as.isEmpty && a.target.associations.all (fun sa => !sa.as.isEmpty))

/-! ## Where-string encoding (CrudAPIUtils.getWhereString) -/

/-- CrudAPIUtils.getWhereString: for each key of the where object append
key, a colon and the (stringified) value, with commas between entries.
The JS loop walks Object.keys in insertion order, which the association
list models directly. -/
def CrudAPIUtils.getWhereString : List (String × String) → String
  | [] => ""
  | [(k, v)] => k ++ ":" ++ v
  | (k, v) :: rest => k ++ ":" ++ v ++ "," ++ CrudAPIUtils.getWhereString rest

/-! ## ParamsBuilder -/

/-- A value stored in the ParamsBuilder output mapping: a plain copied JS
value, a decoded key:value object (filterStringObjectArray), or a resolved
inclusion tree (filterAssociations). Table rows reuse this type, since rows
created through the builder carry exactly these values. -/
inductive PBVal where
  | v (x : JsVal)
  | obj (o : List (String × JsVal))
  | includeNodes (l : List IncludeNode)
deriving DecidableEq, Repr

/-- The ParamsBuilder state: the input mapping given at construction and the
accumulating output mapping. -/
structure ParamsBuilder where
  inputParams : JsObject
  outputParams : List (String × PBVal)
deriving DecidableEq, Repr

/-- The ParamsBuilder constructor: stores the input, starts with an empty
output, and throws No key provided for the first required key whose value
in the input is falsy (absent keys read as undefined, hence falsy). -/
def ParamsBuilder.mk? (params : JsObject) (requiredProperties : List String := []) :
    Except JsErr ParamsBuilder :=
  match requiredProperties.find? (fun key => !(jsGet params key).truthy) with
  | some key => .error (.api ("No " ++ key ++ " provided.") 400)
  | none => .ok { inputParams := params, outputParams := [] }

/-- ParamsBuilder.filterProperties: copy the listed properties from the
input, drop the ones whose copied value is undefined, then either nest the
copied object under the given key (pfx models the source parameter named
after a prefix) or spread-merge it into the output. -/
def ParamsBuilder.filterProperties (b : ParamsBuilder) (properties : List String)
    (pfx : Option String := none) : ParamsBuilder :=
  let filteredProps : JsObject :=
    properties.foldl (fun acc key => jsAssign acc key (jsGet b.inputParams key)) []
  let filteredProps := filteredProps.filter (fun p => p.2 != JsVal.undefined)
  match pfx with
  | some p => { b with outputParams := jsAssign b.outputParams p (.obj filteredProps) }
  | none =>
    { b with outputParams :=
        filteredProps.foldl (fun acc kv => jsAssign acc kv.1 (PBVal.v kv.2)) b.outputParams }

/-- ParamsBuilder.filterStringObjectArray: unless skipped, split the input
value at the key on commas, split each item on a colon into key and value
(a missing value reads as undefined), build the object in order, and store
it in the output under the destination key. Calling split on a non-string
value is a runtime TypeError. -/
def ParamsBuilder.filterStringObjectArray (b : ParamsBuilder) (keyName pfx : String)
    (skipIf : Bool := false) : Except JsErr ParamsBuilder :=
  if skipIf then .ok b else
  match jsGet b.inputParams keyName with
  | .str data =>
    let arr := data.toList.splitOn ','
    let obj : List (String × JsVal) :=
      arr.foldl (fun acc item =>
        let objArr := item.splitOn ':'
        jsAssign acc (String.mk (objArr.headD []))
          (match objArr.get? 1 with
           | some v => JsVal.str (String.mk v)
           | none => JsVal.undefined)) []
    .ok { b with outputParams := jsAssign b.outputParams pfx (.obj obj) }
  | _ => .error (.typeError "data.split is not a function")

/-- ParamsBuilder.filterAssociation: unless skipped, check the alias against
the root models direct associations and write it to the outputs include key
as a bare alias; otherwise throw naming the alias and the possible
associations. -/
def ParamsBuilder.filterAssociation (b : ParamsBuilder) (M : RootModel)
    (associationName : String) (skipIf : Bool := false) : Except JsErr ParamsBuilder :=
  if skipIf then .ok b else
  if M.associations.any (fun a => a.as == associationName.toList) then
    let out := jsAssign b.outputParams "include" (.v (.str associationName))
    .ok { b with outputParams := out }
  else
    .error (.api ("No association found with name " ++ associationName ++
      ". Possible associations are: " ++
      String.intercalate ", " (M.associations.map (fun a => String.mk a.as)) ++ ";") 400)

/-- ParamsBuilder.filterAssociations: unless skipped, read the include
parameter from the input, resolve it against the root models associations,
and write the resolved tree to the output under the same key. Reading split
off a non-string value is a runtime TypeError. -/
def ParamsBuilder.filterAssociations (b : ParamsBuilder) (M : RootModel)
    (includeParameter : String) (skipIf : Bool := false) : Except JsErr ParamsBuilder :=
  if skipIf then .ok b else
  match jsGet b.inputParams includeParameter with
  | .str s =>
    match filterAssociationsList M.associations s.toList with
    | .error e => .error e
    | .ok results =>
      let out := jsAssign b.outputParams includeParameter (.includeNodes results)
      .ok { b with outputParams := out }
  | _ => .error (.typeError "data.split is not a function")

/-- ParamsBuilder.build: return the accumulated output mapping. -/
def ParamsBuilder.build (b : ParamsBuilder) : List (String × PBVal) :=
  b.outputParams

/-- One call of the fluent pipeline, for stating properties of arbitrary
call sequences. -/
inductive PBStep where
  | filterProperties (properties : List String) (pfx : Option String)
  | filterStringObjectArray (keyName pfx : String) (skipIf : Bool)
  | filterAssociation (M : RootModel) (associationName : String) (skipIf : Bool)
  | filterAssociations (M : RootModel) (includeParameter : String) (skipIf : Bool)

/-- Run one pipeline call on the builder state. -/
def ParamsBuilder.runStep (b : ParamsBuilder) : PBStep → Except JsErr ParamsBuilder
  | .filterProperties properties pfx => .ok (b.filterProperties properties pfx)
  | .filterStringObjectArray keyName pfx skipIf =>
    b.filterStringObjectArray keyName pfx skipIf
  | .filterAssociation M associationName skipIf =>
    b.filterAssociation M associationName skipIf
  | .filterAssociations M includeParameter skipIf =>
    b.filterAssociations M includeParameter skipIf

/-- Run a sequence of pipeline calls in order, stopping at the first
thrown error. -/
def ParamsBuilder.runSteps (b : ParamsBuilder) : List PBStep → Except JsErr ParamsBuilder
  | [] => .ok b
  | s :: rest =>
    match b.runStep s with
    | .error e => .error e
    | .ok b2 => b2.runSteps rest

/-! ## Mock ORM collaborator

The data layer is external to the repository; the specification fixes its
narrow contract (count, findAll, findOne, create, row.update, row.destroy
over a table of rows). It is modelled by a list of rows: count is the table
length, findOne returns the first matching row, findAll filters, then skips
the offset and takes the limit. Association attachment through an include
query fragment is performed inside the external ORM and does not change the
selected row set, so the mock ignores the include fragment. -/

/-- A table row (the dataValues of a model instance). -/
abbrev Row := List (String × PBVal)

/-- Row attribute read: undefined when absent. -/
def rowGet (r : Row) (k : String) : PBVal :=
  match r.find? (fun p => p.1 == k) with
  | some p => p.2
  | none => .v .undefined

/-- row.update(fields): merge the given fields into the row. -/
def rowUpdate (r : Row) (fields : List (String × PBVal)) : Row :=
  fields.foldl (fun acc kv => jsAssign acc kv.1 kv.2) r

/-- Replace the first occurrence of a row in the table (an UPDATE of one
fetched instance). -/
def replaceFirst (table : List Row) (old new : Row) : List Row :=
  match table with
  | [] => []
  | r :: rest => if r == old then new :: rest else r :: replaceFirst rest old new

/-- Substring test, modelling the SQL like pattern with wildcards on both
sides. -/
def isSubstringOf (needle : JStr) : JStr → Bool
  | [] => needle.isEmpty
  | c :: rest => needle.isPrefixOf (c :: rest) || isSubstringOf needle rest

/-- The search filter built from q: an OR across the configured search
properties, each compared with like percent-q-percent. -/
structure OrLike where
  props : List String
  q : String
deriving DecidableEq, Repr

/-- A where fragment of a findAll query: the optional OR-search filter under
the dollar-or key, plus the spread-in equality keys of the where parameter. -/
structure WhereQ where
  orLike : Option OrLike
  eqs : List (String × JsVal)
deriving DecidableEq, Repr

/-- Like comparison of one row attribute against the search string. -/
def likeMatches (x : PBVal) (q : String) : Bool :=
  match x with
  | .v (.str s) => isSubstringOf q.toList s.toList
  | _ => false

/-- Row satisfaction of a where fragment: the OR-search filter (when
present) and every equality key must hold. -/
def rowMatchesWhere (r : Row) (w : WhereQ) : Bool :=
  (match w.orLike with
   | none => true
   | some ol => ol.props.any (fun p => likeMatches (rowGet r p) ol.q)) &&
  w.eqs.all (fun kv => rowGet r kv.1 == PBVal.v kv.2)

/-- The query object findAll passes to the data layer (the include fragment
is carried but, being resolved by the external ORM, does not change the
selected row set). -/
structure FindAllQuery where
  limit : Int
  offset : Int
  whereQ : Option WhereQ
  incl : Option (List IncludeNode)
deriving DecidableEq, Repr

/-- Model.count(): the total, unfiltered row count. -/
def Model.countRows (table : List Row) : Nat := table.length

/-- Model.findAll(query): filter by the where fragment, skip the offset,
take the limit. -/
def Model.findAllRows (table : List Row) (q : FindAllQuery) : List Row :=
  (((table.filter (fun r =>
      match q.whereQ with
      | none => true
      | some w => rowMatchesWhere r w)).drop q.offset.toNat).take q.limit.toNat)

/-- Model.findOne with a where clause on one key: first matching row or
null. -/
def Model.findOneRow (table : List Row) (fkName : String) (k : PBVal) : Option Row :=
  table.find? (fun r => rowGet r fkName == k)

/-- Math.ceil of an integer quotient: the ceiling of the real number a / b,
for a non-zero divisor (Int.fdiv rounds toward negative infinity for every
divisor, so its negation on the negated dividend is the ceiling). -/
def mathCeilDiv (a b : Int) : Int := -((-a).fdiv b)

/-- The JS idiom x or-else d applied to an optional number: undefined and 0
are falsy and fall back to the default. -/
def jsOrInt (x : Option Int) (d : Int) : Int :=
  match x with
  | some n => if n = 0 then d else n
  | none => d

/-! ## CrudService options (the closed schema of section 6 of the spec) -/

/-- The upload configuration with its external storage collaborator,
modelled by pure key-to-url and url-to-key functions. -/
structure UploadOptions where
  fields : List String
  uploadUrl : String → String
  parseKeyFn : String → String

/-- One uploaded file of a multipart request (the buffer itself stays with
the external storage collaborator). -/
structure FileArg where
  originalname : String
deriving DecidableEq, Repr

/-- Options of the generated find operation. -/
structure FindOptions where
  dto : Option (List String) := none

/-- Options of the generated findAll operation. -/
structure FindAllOptions where
  searchProperties : Option (List String) := none
  whereProperties : Option (List String) := none
  defaultLimit : Option Int := none
  defaultPage : Option Int := none
  dto : Option (List String) := none

/-- Options of the generated create operation. -/
structure CreateOptions where
  properties : List String
  dto : Option (List String) := none

/-- Options of the generated update operation. -/
structure UpdateOptions where
  properties : List String
  requiredProperties : Option (List String) := none
  dto : Option (List String) := none

/-- The full declarative options object of CrudService. -/
structure ServiceOptions where
  upload : Option UploadOptions := none
  find : Option FindOptions := none
  findAll : Option FindAllOptions := none
  create : Option CreateOptions := none
  update : Option UpdateOptions := none
  delete : Bool := false
  debug : Bool := false

/-- CrudService.arrayToDto: reduce the property list into a fresh object,
copying (possibly undefined) values from the body. -/
def CrudService.arrayToDto (properties : List String) (body : Row) : Row :=
  properties.foldl (fun acc key => jsAssign acc key (rowGet body key)) []

/-- The for-in loop of findAll over the where keys: on the first key, a
missing whereProperties whitelist is a runtime TypeError (reading includes
of undefined); a key outside the whitelist throws Invalid where property
naming that key. -/
def checkWhereKeys (wl : Option (List String)) :
    List (String × JsVal) → Except JsErr Unit
  | [] => .ok ()
  | (k, _) :: rest =>
    match wl with
    | none => .error (.typeError "Cannot read properties of undefined (reading includes)")
    | some ws =>
      if ws.contains k then checkWhereKeys wl rest
      else .error (.api ("Invalid where property " ++ k ++ ".") 400)

/-- The effective limit of findAll: parseInt(limit) or-else the configured
default or-else 10. -/
def CrudService.effectiveLimit (opts : FindAllOptions) (limit : Option Int) : Int :=
  jsOrInt limit (jsOrInt opts.defaultLimit 10)

/-- The effective page of findAll: a falsy or smaller-than-1 page falls back
to the configured default or-else 1. -/
def CrudService.effectivePage (opts : FindAllOptions) (page : Option Int) : Int :=
  match page with
  | some n => if n < 1 then jsOrInt opts.defaultPage 1 else n
  | none => jsOrInt opts.defaultPage 1

/-- The final projection step of findAll: map the rows through arrayToDto
when a DTO list is configured, otherwise return them as they are. -/
def CrudService.dtoRows (dto : Option (List String)) (rows : List Row) : List Row :=
  match dto with
  | some d => rows.map (CrudService.arrayToDto d)
  | none => rows

/-- The object findAll returns: total count, page count and the fetched
rows. -/
structure FindAllResult where
  count : Nat
  pages : Int
  rows : List Row
deriving DecidableEq, Repr

/-- CrudService findAll (source lines 157-227): compute the effective limit
and page, build the search filter from q (requiring configured search
properties), check every where key against the whitelist and spread the
where keys into the filter, then fetch with offset (page-1)*limit while the
count comes from an independent, unfiltered count query; apply the DTO
projection when configured. -/
def CrudService.findAll (opts : FindAllOptions) (table : List Row)
    (limit : Option Int) (page : Option Int := some 1) (q : Option String := none)
    (whereParam : Option (List (String × JsVal)) := none)
    (includeParam : Option (List IncludeNode) := none) :
    Except JsErr FindAllResult :=
  let qlimit := CrudService.effectiveLimit opts limit
  let epage := CrudService.effectivePage opts page
  let qTruthy := match q with | some s => s != "" | none => false
  if qTruthy && opts.searchProperties.isNone then
    .error (.api "No search properties are defined." 400)
  else
    let orLike : Option OrLike :=
      if qTruthy then
        match q, opts.searchProperties with
        | some s, some props => some { props := props, q := s }
        | _, _ => none
      else none
    match whereParam with
    | some w =>
      (match checkWhereKeys opts.whereProperties w with
       | .error e => .error e
       | .ok _ =>
         let whereQ : Option WhereQ := some { orLike := orLike, eqs := w }
         let offset := (epage - 1) * qlimit
         let count := Model.countRows table
         let pages := mathCeilDiv count qlimit
         let rows := Model.findAllRows table
           { limit := qlimit, offset := offset, whereQ := whereQ, incl := includeParam }
         .ok ⟨count, pages, CrudService.dtoRows opts.dto rows⟩)
    | none =>
      let whereQ : Option WhereQ :=
        match orLike with
        | some ol => some { orLike := some ol, eqs := [] }
        | none => none
      let offset := (epage - 1) * qlimit
      let count := Model.countRows table
      let pages := mathCeilDiv count qlimit
      let rows := Model.findAllRows table
        { limit := qlimit, offset := offset, whereQ := whereQ, incl := includeParam }
      .ok ⟨count, pages, CrudService.dtoRows opts.dto rows⟩

/-- JS template-literal stringification of a stored value (array and object
values stringify through Object.prototype; only plain values are
interpolated by the paths the claims exercise). -/
def PBVal.toStr : PBVal → String
  | .v x => x.toStr
  | .obj _ => "[object Object]"
  | .includeNodes _ => "[object Object]"

/-- CrudService find (source lines 98-134): MissingKey on a falsy primary
key, NotFound when no row matches; the optional include attaches an
association inside the external ORM (the mock attaches none, so the
flattening step rewrites nothing); DTO projection last. -/
def CrudService.find (dtoOpt : Option (List String)) (modelName fkName : String)
    (table : List Row) (pk : JsVal) (includeParam : Option String := none) :
    Except JsErr Row :=
  if !pk.truthy then
    .error (.api ("No " ++ fkName ++ " provided.") 400)
  else
    match Model.findOneRow table fkName (.v pk) with
    | none =>
      .error (.api ("No " ++ modelName ++ " found with " ++ fkName ++ " " ++
        pk.toStr ++ ".") 400)
    | some row =>
      match dtoOpt with
      | some d => .ok (CrudService.arrayToDto d row)
      | none => .ok row

/-- The file-upload stage of create (source lines 255-274): without an
upload configuration the provided files are an ApiRequestError; otherwise
each file is uploaded by the external storage collaborator under a key
derived from the new rows foreign key and the files original name, and the
resulting urls are merged into the row, field by configured field. -/
def CrudService.applyCreateFiles (uploadOpts : Option UploadOptions)
    (fkName : String) (row : Row) (table : List Row)
    (files : Option (List FileArg)) : Except JsErr (Row × List Row) :=
  match files with
  | none => .ok (row, table)
  | some fl =>
    match uploadOpts with
    | none => .error (.api "No upload configuration provided." 400)
    | some up =>
      let fk := (rowGet row fkName).toStr
      let sources : List (String × PBVal) :=
        (List.range fl.length).foldl (fun acc i =>
          let key := fk ++ "_" ++ (((fl.get? i).map FileArg.originalname).getD "undefined")
          let url := up.uploadUrl key
          jsAssign acc (up.fields.getD i "undefined") (PBVal.v (.str url))) []
      let row2 := rowUpdate row sources
      .ok (row2, replaceFirst table row row2)

/-- The file-upload stage of update (source lines 343-364): like the create
stage, but each storage key is recovered from the currently stored url of
the configured field. -/
def CrudService.applyUpdateFiles (uploadOpts : Option UploadOptions)
    (row : Row) (table : List Row) (files : Option (List FileArg)) :
    Except JsErr (Row × List Row) :=
  match files with
  | none => .ok (row, table)
  | some fl =>
    match uploadOpts with
    | none => .error (.api "No upload configuration provided." 400)
    | some up =>
      let sources : List (String × PBVal) :=
        (List.range fl.length).foldl (fun acc i =>
          let field := up.fields.getD i "undefined"
          let existingKey := up.parseKeyFn (rowGet row field).toStr
          let url := up.uploadUrl existingKey
          jsAssign acc field (PBVal.v (.str url))) []
      let row2 := rowUpdate row sources
      .ok (row2, replaceFirst table row row2)

/-- The responseInclude stage of create and update: when present, re-fetch
the row by key with the resolved inclusion tree attached (the attachment
itself happens in the external ORM); reading from a failed re-fetch is a
runtime TypeError. -/
def CrudService.refetchWithInclude (fkName : String) (key : PBVal)
    (responseInclude : Option (List IncludeNode)) (table : List Row) (row : Row) :
    Except JsErr Row :=
  match responseInclude with
  | none => .ok row
  | some _ =>
    match Model.findOneRow table fkName key with
    | none => .error (.typeError "Cannot read properties of null (reading dataValues)")
    | some r2 => .ok r2

/-- CrudService create (source lines 243-305): run the input through
ParamsBuilder with the creatable property list both as required keys and as
the whitelist, persist, then apply files, responseInclude and the DTO
projection. The returned pair carries the response and the resulting
table, so an error before persistence leaves the table unchanged. -/
def CrudService.create (opts : CreateOptions) (uploadOpts : Option UploadOptions)
    (fkName : String) (table : List Row) (params : JsObject := [])
    (responseInclude : Option (List IncludeNode) := none)
    (files : Option (List FileArg) := none) : Except JsErr Row × List Row :=
  match ParamsBuilder.mk? params opts.properties with
  | .error e => (.error e, table)
  | .ok b =>
    let properties := (b.filterProperties opts.properties).build
    let row : Row := properties
    let table1 := table ++ [row]
    match CrudService.applyCreateFiles uploadOpts fkName row table1 files with
    | .error e => (.error e, table1)
    | .ok (row2, table2) =>
      match CrudService.refetchWithInclude fkName (rowGet row2 fkName)
          responseInclude table2 row2 with
      | .error e => (.error e, table2)
      | .ok resultRow =>
        match opts.dto with
        | some d => (.ok (CrudService.arrayToDto d resultRow), table2)
        | none => (.ok resultRow, table2)

/-- CrudService update (source lines 326-397): run the input through
ParamsBuilder with the configured required properties (defaulted to the
empty list by the constructor) and the updatable property whitelist, fail
NotFound when no row matches the key, otherwise merge the whitelisted
fields, then apply files, responseInclude and the DTO projection. -/
def CrudService.update (opts : UpdateOptions) (uploadOpts : Option UploadOptions)
    (modelName fkName : String) (table : List Row) (foreignKey : JsVal := .str "")
    (params : JsObject := []) (responseInclude : Option (List IncludeNode) := none)
    (files : Option (List FileArg) := none) : Except JsErr Row × List Row :=
  match ParamsBuilder.mk? params (opts.requiredProperties.getD []) with
  | .error e => (.error e, table)
  | .ok b =>
    let properties := (b.filterProperties opts.properties).build
    match Model.findOneRow table fkName (.v foreignKey) with
    | none =>
      (.error (.api ("No " ++ modelName ++ " found with " ++ fkName ++ " " ++
        foreignKey.toStr ++ ".") 400), table)
    | some entity =>
      let row1 := rowUpdate entity properties
      let table1 := replaceFirst table entity row1
      match CrudService.applyUpdateFiles uploadOpts row1 table1 files with
      | .error e => (.error e, table1)
      | .ok (row2, table2) =>
        match CrudService.refetchWithInclude fkName (.v foreignKey)
            responseInclude table2 row2 with
        | .error e => (.error e, table2)
        | .ok resultRow =>
          match opts.dto with
          | some d => (.ok (CrudService.arrayToDto d resultRow), table2)
          | none => (.ok resultRow, table2)

/-- CrudService destroy (source lines 408-443): MissingKey on a falsy key;
then the row is fetched and used directly - with an upload configuration its
field values are read for file deletion (a runtime TypeError when no row
matched), and row.destroy() is called (a runtime TypeError when no row
matched). The source performs no NotFound check. -/
def CrudService.destroy (uploadOpts : Option UploadOptions) (fkName : String)
    (table : List Row) (foreignKey : JsVal := .str "") : Except JsErr (List Row) :=
  if !foreignKey.truthy then
    .error (.api ("No " ++ fkName ++ " provided.") 400)
  else
    let result := Model.findOneRow table fkName (.v foreignKey)
    match uploadOpts with
    | some _ =>
      match result with
      | none => .error (.typeError "Cannot read properties of null (reading dataValues)")
      | some row =>
        -- the per-field deleteFile calls go to the external storage
        -- collaborator and do not touch the table
        .ok (table.erase row)
    | none =>
      match result with
      | none => .error (.typeError "Cannot read properties of null (reading destroy)")
      | some row => .ok (table.erase row)

/-- The generated operation set: the CrudService constructor assigns each
member only inside the if-block guarded by the corresponding options key,
so an operation is a member exactly when its key was supplied (and
otherwise reading it yields undefined). -/
structure CrudServiceOps where
  find : Option (List Row → JsVal → Option String → Except JsErr Row)
  findAll : Option (List Row → Option Int → Option Int → Option String → Option (List (String × JsVal)) → Option (List IncludeNode) → Except JsErr FindAllResult)
  create : Option (List Row → JsObject → Option (List IncludeNode) → Option (List FileArg) → Except JsErr Row × List Row)
  update : Option (List Row → JsVal → JsObject → Option (List IncludeNode) → Option (List FileArg) → Except JsErr Row × List Row)
  destroy : Option (List Row → JsVal → Except JsErr (List Row))

/-- The CrudService constructor (source lines 74-445): synthesize the
operation set from the options; the delete key (truthy) generates the
destroy member. -/
def CrudService.mkService (modelName fkName : String) (options : ServiceOptions) :
    CrudServiceOps :=
  { find := options.find.map (fun fo => fun table pk inc => CrudService.find fo.dto modelName fkName table pk inc)
    findAll := options.findAll.map (fun fa => fun table limit page q w i => CrudService.findAll fa table limit page q w i)
    create := options.create.map (fun co => fun table params ri fl => CrudService.create co options.upload fkName table params ri fl)
    update := options.update.map (fun uo => fun table fk params ri fl => CrudService.update uo options.upload modelName fkName table fk params ri fl)
    destroy := if options.delete then some (fun table fk => CrudService.destroy options.upload fkName table fk) else none }

/-! ## Client operation set (CrudAPI)

The client mirrors the declarative options. Its construction data is the
exact tuple getConstructorOptions returns (the constructor arguments);
toJson stringifies that tuple and fromJson re-constructs an instance from
the parsed tuple. JSON.stringify and JSON.parse are the platform JSON
codec, mutually inverse on JSON trees by their own contract, so the pair is
modelled at the JSON-tree level. The external token store (localStorage) is
modelled as a lookup function passed to the operations. -/

/-- The authorization options of CrudAPI: a storage kind with either a
lookup key (localStorage) or an in-memory token. -/
structure ApiAuthorization where
  storage : Option String := none
  key : Option String := none
  token : Option String := none
deriving DecidableEq, Repr

/-- Options of a client operation carrying only the auth flag
(find, findAll, delete). -/
structure ApiOpAuth where
  auth : Bool := false
deriving DecidableEq, Repr

/-- Options of the client create operation. -/
structure ApiCreateOptions where
  auth : Bool := false
  properties : List String := []
deriving DecidableEq, Repr

/-- Options of the client update operation. -/
structure ApiUpdateOptions where
  auth : Bool := false
  properties : List String := []
  requiredProperties : Option (List String) := none
deriving DecidableEq, Repr

/-- The declarative options object of CrudAPI (closed schema). -/
structure ApiOptions where
  authorization : Option ApiAuthorization := none
  find : Option ApiOpAuth := none
  findAll : Option ApiOpAuth := none
  create : Option ApiCreateOptions := none
  update : Option ApiUpdateOptions := none
  delete : Option ApiOpAuth := none
deriving DecidableEq, Repr

/-- The constructor arguments of a CrudAPI instance; exactly the object
getConstructorOptions closes over and returns. -/
structure CrudAPIData where
  serverURL : String
  endpoint : String
  foreignKeyName : String
  options : ApiOptions
deriving DecidableEq, Repr

/-- JSON trees, the intermediate form of JSON.stringify and JSON.parse. -/
inductive Json where
  | str (s : String)
  | num (n : Int)
  | boolean (b : Bool)
  | null
  | arr (elements : List Json)
  | obj (fields : List (String × Json))

/-- A string list as a JSON array. -/
def jsonOfStrList (l : List String) : Json := .arr (l.map .str)

/-- An optional string property: stringify drops absent keys. -/
def optStrField (k : String) (v : Option String) : List (String × Json) :=
  match v with
  | some s => [(k, .str s)]
  | none => []

/-- The authorization options as a JSON tree. -/
def ApiAuthorization.toJson (a : ApiAuthorization) : Json :=
  .obj (optStrField "storage" a.storage ++ optStrField "key" a.key ++
    optStrField "token" a.token)

/-- An auth-only operation option as a JSON tree. -/
def ApiOpAuth.toJson (o : ApiOpAuth) : Json := .obj [("auth", .boolean o.auth)]

/-- The create options as a JSON tree. -/
def ApiCreateOptions.toJson (c : ApiCreateOptions) : Json :=
  .obj [("auth", .boolean c.auth), ("properties", jsonOfStrList c.properties)]

/-- The update options as a JSON tree (an absent requiredProperties key is
dropped by stringify). -/
def ApiUpdateOptions.toJson (u : ApiUpdateOptions) : Json :=
  .obj ([("auth", .boolean u.auth), ("properties", jsonOfStrList u.properties)] ++
    (match u.requiredProperties with
     | some l => [("requiredProperties", jsonOfStrList l)]
     | none => []))

/-- An optional sub-object property of the options object. -/
def optObjField {α : Type} (k : String) (enc : α → Json) (v : Option α) :
    List (String × Json) :=
  match v with
  | some x => [(k, enc x)]
  | none => []

/-- The options object as a JSON tree: only the supplied keys appear. -/
def ApiOptions.toJson (o : ApiOptions) : Json :=
  .obj (optObjField "authorization" ApiAuthorization.toJson o.authorization ++
    optObjField "find" ApiOpAuth.toJson o.find ++
    optObjField "findAll" ApiOpAuth.toJson o.findAll ++
    optObjField "create" ApiCreateOptions.toJson o.create ++
    optObjField "update" ApiUpdateOptions.toJson o.update ++
    optObjField "delete" ApiOpAuth.toJson o.delete)

/-- CrudAPI.toJson: stringify the constructor options
(serverURL, endpoint, foreignKeyName, options). -/
def CrudAPI.toJson (d : CrudAPIData) : Json :=
  .obj [("serverURL", .str d.serverURL), ("endpoint", .str d.endpoint),
    ("foreignKeyName", .str d.foreignKeyName), ("options", d.options.toJson)]

/-- Key lookup in a parsed JSON object. -/
def jLookup (fields : List (String × Json)) (k : String) : Option Json :=
  (fields.find? (fun p => p.1 == k)).map (fun p => p.2)

/-- A JSON tree as a string, when it is one. -/
def jsonToStr : Json → Option String
  | .str s => some s
  | _ => none

/-- A JSON tree as a boolean, defaulting to false (matching how a missing
or non-boolean auth flag reads falsy). -/
def jsonToBool : Option Json → Bool
  | some (.boolean b) => b
  | _ => false

/-- A list of JSON trees as a string list, when all elements are strings. -/
def jsonStrs : List Json → Option (List String)
  | [] => some []
  | .str s :: rest => (jsonStrs rest).map (fun l => s :: l)
  | _ => none

/-- A JSON tree as a string list, when it is an array of strings. -/
def jsonToStrList : Json → Option (List String)
  | .arr es => jsonStrs es
  | _ => none

/-- The authorization options read back from a parsed JSON tree. -/
def decodeApiAuthorization : Json → Option ApiAuthorization
  | .obj f => some
      { storage := (jLookup f "storage").bind jsonToStr
        key := (jLookup f "key").bind jsonToStr
        token := (jLookup f "token").bind jsonToStr }
  | _ => none

/-- An auth-only operation option read back from a parsed JSON tree. -/
def decodeApiOpAuth : Json → Option ApiOpAuth
  | .obj f => some { auth := jsonToBool (jLookup f "auth") }
  | _ => none

/-- The create options read back from a parsed JSON tree. -/
def decodeApiCreateOptions : Json → Option ApiCreateOptions
  | .obj f =>
    match (jLookup f "properties").bind jsonToStrList with
    | some props => some { auth := jsonToBool (jLookup f "auth"), properties := props }
    | none => none
  | _ => none

/-- The update options read back from a parsed JSON tree. -/
def decodeApiUpdateOptions : Json → Option ApiUpdateOptions
  | .obj f =>
    match (jLookup f "properties").bind jsonToStrList with
    | some props => some
        { auth := jsonToBool (jLookup f "auth"), properties := props,
          requiredProperties := (jLookup f "requiredProperties").bind jsonToStrList }
    | none => none
  | _ => none

/-- An optional sub-object of the options object: an absent key reads as
none, a present key must decode. -/
def decodeOptField {α : Type} (f : List (String × Json)) (k : String)
    (dec : Json → Option α) : Option (Option α) :=
  match jLookup f k with
  | none => some none
  | some j => (dec j).map some

/-- The options object read back from a parsed JSON tree. -/
def decodeApiOptions : Json → Option ApiOptions
  | .obj f =>
    match decodeOptField f "authorization" decodeApiAuthorization,
        decodeOptField f "find" decodeApiOpAuth,
        decodeOptField f "findAll" decodeApiOpAuth,
        decodeOptField f "create" decodeApiCreateOptions,
        decodeOptField f "update" decodeApiUpdateOptions,
        decodeOptField f "delete" decodeApiOpAuth with
    | some authz, some fnd, some fndAll, some cre, some upd, some del =>
      some ⟨authz, fnd, fndAll, cre, upd, del⟩
    | _, _, _, _, _, _ => none
  | _ => none

/-- CrudAPI.fromJson: parse the serialized constructor options and
re-construct the instance data from them. -/
def CrudAPI.fromJson (j : Json) : Option CrudAPIData :=
  match j with
  | .obj f =>
    match jLookup f "serverURL", jLookup f "endpoint",
        jLookup f "foreignKeyName", jLookup f "options" with
    | some (.str su), some (.str ep), some (.str fk), some oj =>
      (decodeApiOptions oj).map (fun o =>
        { serverURL := su, endpoint := ep, foreignKeyName := fk, options := o })
    | _, _, _, _ => none
  | _ => none

/-! ## Client operation behaviour -/

/-- The outbound HTTP request an operation builds: url, method, the
Authorization header when one is attached, whether a JSON content type is
set, and the JSON body when one is sent. -/
structure HttpRequest where
  url : String
  method : String
  authHeader : Option String := none
  contentTypeJson : Bool := false
  body : Option JsObject := none
deriving DecidableEq, Repr

/-- buildRequestOptions: when auth is requested, attach a Bearer header from
localStorage (when the key resolves to a token) or from the in-memory
token. -/
def CrudAPI.authHeaderFor (authorization : Option ApiAuthorization)
    (localStore : String → Option String) (useAuth : Bool) : Option String :=
  if useAuth then
    let a := authorization.getD {}
    if a.storage == some "localStorage" then
      (localStore (a.key.getD "undefined")).map (fun t => "Bearer " ++ t)
    else if a.storage == some "memory" then
      some ("Bearer " ++ (a.token.getD "undefined"))
    else none
  else none

/-- One element of the client include array (model name with optional
sub-association names), as CrudAPI.findAll consumes it. -/
structure ApiIncludeEntry where
  model : String
  incl : Option (List String) := none
deriving DecidableEq, Repr

/-- The where fragment the client findAll appends: key colon stringified
value, comma separated, in key order. -/
def CrudAPI.whereQueryFragment : JsObject → String
  | [] => ""
  | [(k, v)] => k ++ ":" ++ v.toStr
  | (k, v) :: rest => k ++ ":" ++ v.toStr ++ "," ++ CrudAPI.whereQueryFragment rest

/-- The include fragment the client findAll appends (same loop as
CrudAPIUtils.getIncludeString, inlined in CrudAPI.findAll over native
strings). -/
def CrudAPI.includeQueryFragment : List ApiIncludeEntry → Except JsErr String
  | [] => .ok ""
  | e :: rest =>
    if e.model == "" then
      .error (.jsError "Include parameter must have a model property.")
    else
      let seg := e.model ++
        (match e.incl with
         | none => ""
         | some children => "." ++ String.intercalate ":" children)
      match rest with
      | [] => .ok seg
      | _ :: _ =>
        match CrudAPI.includeQueryFragment rest with
        | .error er => .error er
        | .ok r => .ok (seg ++ "," ++ r)

/-- The parameters object of the client findAll. -/
structure ApiFindAllParams where
  page : Option Int := none
  limit : Option Int := none
  q : Option String := none
  includeArr : Option (List ApiIncludeEntry) := none
  whereObj : Option JsObject := none

/-- The client find operation: key from the params by foreign key name,
GET serverURL endpoint slash key (slash include when given). -/
def CrudAPI.findReq (d : CrudAPIData) (fo : ApiOpAuth)
    (localStore : String → Option String) (params : JsObject)
    (includeOpt : Option String := none) : Except JsErr HttpRequest :=
  let key := jsGet params d.foreignKeyName
  if !key.truthy then
    .error (.jsError ("No " ++ d.foreignKeyName ++ " provided."))
  else
    let url := d.serverURL ++ d.endpoint ++ "/" ++ key.toStr ++
      (match includeOpt with | some i => "/" ++ i | none => "")
    .ok ⟨url, "GET", CrudAPI.authHeaderFor d.options.authorization localStore fo.auth, false, none⟩

/-- The client findAll operation: limit is required and truthy, then the
where, include, page and q query parameters are appended in that order. -/
def CrudAPI.findAllReq (d : CrudAPIData) (fa : ApiOpAuth)
    (localStore : String → Option String) (params : ApiFindAllParams) :
    Except JsErr HttpRequest :=
  match params.limit with
  | none => .error (.jsError "No limit parameter provided.")
  | some l =>
    if l = 0 then .error (.jsError "No limit parameter provided.")
    else
      let base := d.serverURL ++ d.endpoint ++ "?limit=" ++ toString l
      let withWhere := base ++
        (match params.whereObj with
         | some w => "&where=" ++ CrudAPI.whereQueryFragment w
         | none => "")
      match (match params.includeArr with
             | some arr => (CrudAPI.includeQueryFragment arr).map (fun f => some f)
             | none => .ok none) with
      | .error e => .error e
      | .ok incFrag =>
        let withInc := withWhere ++
          (match incFrag with | some f => "&include=" ++ f | none => "")
        let withPage := withInc ++
          (match params.page with
           | some p => if p = 0 then "" else "&page=" ++ toString p
           | none => "")
        let withQ := withPage ++
          (match params.q with
           | some s => if s = "" then "" else "&q=" ++ s
           | none => "")
        .ok ⟨withQ, "GET", CrudAPI.authHeaderFor d.options.authorization localStore fa.auth, false, none⟩

/-- The client create operation: every configured property must be truthy
in the params (No property provided otherwise), then POST the params as a
JSON body. -/
def CrudAPI.createReq (d : CrudAPIData) (co : ApiCreateOptions)
    (localStore : String → Option String) (params : JsObject) :
    Except JsErr HttpRequest :=
  match co.properties.find? (fun key => !(jsGet params key).truthy) with
  | some key => .error (.jsError ("No " ++ key ++ " provided."))
  | none =>
    .ok ⟨d.serverURL ++ d.endpoint, "POST", CrudAPI.authHeaderFor d.options.authorization localStore co.auth, true, some params⟩

/-- The client update operation: the configured required properties (when
given) must be truthy, then the key must be truthy, then PUT the params as
a JSON body. -/
def CrudAPI.updateReq (d : CrudAPIData) (uo : ApiUpdateOptions)
    (localStore : String → Option String) (params : JsObject) :
    Except JsErr HttpRequest :=
  match (uo.requiredProperties.getD []).find? (fun key => !(jsGet params key).truthy) with
  | some key => .error (.jsError ("No " ++ key ++ " provided."))
  | none =>
    let key := jsGet params d.foreignKeyName
    if !key.truthy then
      .error (.jsError ("No " ++ d.foreignKeyName ++ " provided."))
    else
      .ok ⟨d.serverURL ++ d.endpoint, "PUT", CrudAPI.authHeaderFor d.options.authorization localStore uo.auth, true, some params⟩

/-- The client destroy operation: the key must be truthy, then DELETE with
the params as a JSON body. -/
def CrudAPI.destroyReq (d : CrudAPIData) (dw : ApiOpAuth)
    (localStore : String → Option String) (params : JsObject) :
    Except JsErr HttpRequest :=
  let key := jsGet params d.foreignKeyName
  if !key.truthy then
    .error (.jsError ("No " ++ d.foreignKeyName ++ " provided."))
  else
    .ok ⟨d.serverURL ++ d.endpoint, "DELETE", CrudAPI.authHeaderFor d.options.authorization localStore dw.auth, true, some params⟩

/-- The generated client operation set: one optional member per options
key, each a pure request builder over the external token store. -/
structure CrudAPIOps where
  find : Option ((String → Option String) → JsObject → Option String → Except JsErr HttpRequest)
  findAll : Option ((String → Option String) → ApiFindAllParams → Except JsErr HttpRequest)
  create : Option ((String → Option String) → JsObject → Except JsErr HttpRequest)
  update : Option ((String → Option String) → JsObject → Except JsErr HttpRequest)
  destroy : Option ((String → Option String) → JsObject → Except JsErr HttpRequest)

/-- The CrudAPI constructor: synthesize the client operation set from the
constructor data. -/
def CrudAPI.mkAPI (d : CrudAPIData) : CrudAPIOps :=
  { find := d.options.find.map (fun fo => fun store params inc => CrudAPI.findReq d fo store params inc)
    findAll := d.options.findAll.map (fun fa => fun store params => CrudAPI.findAllReq d fa store params)
    create := d.options.create.map (fun co => fun store params => CrudAPI.createReq d co store params)
    update := d.options.update.map (fun uo => fun store params => CrudAPI.updateReq d uo store params)
    destroy := d.options.delete.map (fun dw => fun store params => CrudAPI.destroyReq d dw store params) }

/-! ## Example data for concrete witnesses

The association graph of the repository test suite: Material has direct
associations Texture and Image; the Texture model in turn has Material,
Image and TextureType; the Image model has Material and Texture. -/

/-- The Texture target model of the test graph. -/
def exTexture : TargetModel :=
  ⟨"Texture".toList,
   [⟨"Material".toList, "Material".toList⟩, ⟨"Image".toList, "Image".toList⟩,
    ⟨"TextureType".toList, "TextureType".toList⟩]⟩

/-- The Image target model of the test graph. -/
def exImage : TargetModel :=
  ⟨"Image".toList,
   [⟨"Material".toList, "Material".toList⟩, ⟨"Texture".toList, "Texture".toList⟩]⟩

/-- The direct associations of the Material model of the test graph. -/
def exMaterialAssocs : List RootAssoc :=
  [⟨"Texture".toList, exTexture⟩, ⟨"Image".toList, exImage⟩]

/-! ## Claim theorems -/

/-- C7: the constructed operation set has each of find, findAll, create,
update, destroy as a callable member if and only if the corresponding
options key (find, findAll, create, update, delete) is present; when the
key is absent the member does not exist at all. -/
theorem crudservice_presence_iff_options (modelName fkName : String)
    (options : ServiceOptions) :
    ((CrudService.mkService modelName fkName options).find.isSome ↔ options.find.isSome) ∧
    ((CrudService.mkService modelName fkName options).findAll.isSome ↔ options.findAll.isSome) ∧
    ((CrudService.mkService modelName fkName options).create.isSome ↔ options.create.isSome) ∧
    ((CrudService.mkService modelName fkName options).update.isSome ↔ options.update.isSome) ∧
    ((CrudService.mkService modelName fkName options).destroy.isSome ↔ options.delete = true) := by
  cases hd : options.delete <;>
    simp [CrudService.mkService, hd, Option.isSome_map]

/-- C3: the first half of the claim holds (a falsy key is the MissingKey
ApiRequestError), but on a truthy key matching no row the code does not
fail NotFound: Model.findOne returned null and the code dereferences it,
a runtime TypeError, because destroy performs no existence check. -/
theorem crudservice_destroy_nullderef :
    CrudService.destroy none "uuid" [[("uuid", PBVal.v (.str "a"))]] (.str "") =
      .error (.api "No uuid provided." 400) ∧
    CrudService.destroy none "uuid" [[("uuid", PBVal.v (.str "a"))]] (.str "missing") =
      .error (.typeError "Cannot read properties of null (reading destroy)") ∧
    CrudService.destroy (some ⟨["img"], id, id⟩) "uuid" [[("uuid", PBVal.v (.str "a"))]]
        (.str "missing") =
      .error (.typeError "Cannot read properties of null (reading dataValues)") := by
  refine ⟨by decide, by decide, ?_⟩
  rfl

/-- C5: when some configured create property is absent or falsy in the
params, create fails with the MissingParameter ApiRequestError naming the
first such property, thrown by the ParamsBuilder constructor before
Model.create runs, so the table is unchanged. -/
theorem crudservice_create_missing_parameter (opts : CreateOptions)
    (uploadOpts : Option UploadOptions) (fkName : String) (table : List Row)
    (params : JsObject) (ri : Option (List IncludeNode)) (files : Option (List FileArg))
    (key : String)
    (h : opts.properties.find? (fun p => !(jsGet params p).truthy) = some key) :
    CrudService.create opts uploadOpts fkName table params ri files =
      (.error (.api ("No " ++ key ++ " provided.") 400), table) ∧
    key ∈ opts.properties ∧ (jsGet params key).truthy = false := by
  have hmem := List.mem_of_find?_eq_some h
  have hpred := List.find?_some h
  have hfalse : (jsGet params key).truthy = false := by simpa using hpred
  refine ⟨?_, hmem, hfalse⟩
  unfold CrudService.create ParamsBuilder.mk?
  rw [h]

/-- C5 witness: a service configured with a required name property rejects
empty params with No name provided and creates no row. -/
theorem crudservice_create_missing_parameter_witness :
    CrudService.create ⟨["name"], none⟩ none "uuid" [] [] none none =
      (.error (.api ("No " ++ "name" ++ " provided.") 400), []) ∧
    "name" ∈ (⟨["name"], none⟩ : CreateOptions).properties ∧
    (jsGet [] "name").truthy = false :=
  crudservice_create_missing_parameter ⟨["name"], none⟩ none "uuid" [] [] none none
    "name" (by decide)

/-- C6: when the params pass the configured required-properties check but no
row matches the key, update fails with the NotFound ApiRequestError and the
table is unchanged (no field mutation reaches the data layer). -/
theorem crudservice_update_notfound (opts : UpdateOptions)
    (uploadOpts : Option UploadOptions) (modelName fkName : String) (table : List Row)
    (foreignKey : JsVal) (params : JsObject) (ri : Option (List IncludeNode))
    (files : Option (List FileArg))
    (h1 : (opts.requiredProperties.getD []).find? (fun key => !(jsGet params key).truthy) = none)
    (h2 : Model.findOneRow table fkName (.v foreignKey) = none) :
    CrudService.update opts uploadOpts modelName fkName table foreignKey params ri files =
      (.error (.api ("No " ++ modelName ++ " found with " ++ fkName ++ " " ++
        foreignKey.toStr ++ ".") 400), table) := by
  unfold CrudService.update ParamsBuilder.mk?
  rw [h1, h2]

/-- C6 witness: updating a missing uuid on a one-row table fails NotFound
and leaves the table as it was. -/
theorem crudservice_update_notfound_witness :
    CrudService.update ⟨["name"], none, none⟩ none "Material" "uuid"
        [[("uuid", PBVal.v (.str "a"))]] (.str "b") [("name", .str "Foam")] none none =
      (.error (.api ("No " ++ "Material" ++ " found with " ++ "uuid" ++ " " ++
        (JsVal.str "b").toStr ++ ".") 400), [[("uuid", PBVal.v (.str "a"))]]) :=
  crudservice_update_notfound ⟨["name"], none, none⟩ none "Material" "uuid"
    [[("uuid", PBVal.v (.str "a"))]] (.str "b") [("name", .str "Foam")] none none
    (by decide) (by decide)

/-- mathCeilDiv agrees with the rational ceiling of the quotient for a
positive divisor. -/
theorem mathCeilDiv_eq_rat_ceil (n : Nat) (L : Int) (hL : 1 ≤ L) :
    mathCeilDiv (n : Int) L = ⌈(n : ℚ) / (L : ℚ)⌉ := by
  have hb : (0 : Int) ≤ L := by omega
  unfold mathCeilDiv
  rw [Int.fdiv_eq_ediv _ hb]
  have hLnat : L = ((L.toNat : ℕ) : ℤ) := (Int.toNat_of_nonneg hb).symm
  rw [hLnat, ← Rat.floor_intCast_div_natCast (-(n : Int)) L.toNat]
  push_cast
  rw [neg_div, Int.floor_neg, neg_neg]

/-- The DTO projection of findAll does not change the number of rows. -/
theorem dtoRows_length (dto : Option (List String)) (rows : List Row) :
    (CrudService.dtoRows dto rows).length = rows.length := by
  cases dto <;> simp [CrudService.dtoRows]

/-- The mock fetch returns at most limit-many rows. -/
theorem findAllRows_length_le (table : List Row) (q : FindAllQuery) :
    (Model.findAllRows table q).length ≤ q.limit.toNat := by
  simp [Model.findAllRows]

/-- C2: for every findAll call whose effective limit L is at least 1, a
successful result has count equal to the total unfiltered table length,
pages equal to the rational ceiling of count over L, rows fetched with
limit L at offset (page - 1) * L (for the effective page), and therefore at
most L rows. -/
theorem crudservice_findall_pagination (opts : FindAllOptions) (table : List Row)
    (limit page : Option Int) (q : Option String)
    (w : Option (List (String × JsVal))) (inc : Option (List IncludeNode))
    (r : FindAllResult)
    (hL : 1 ≤ CrudService.effectiveLimit opts limit)
    (hok : CrudService.findAll opts table limit page q w inc = .ok r) :
    r.count = table.length ∧
    r.pages = ⌈(table.length : ℚ) / (CrudService.effectiveLimit opts limit : ℚ)⌉ ∧
    (∃ wq, r.rows = CrudService.dtoRows opts.dto (Model.findAllRows table
      ⟨CrudService.effectiveLimit opts limit,
       (CrudService.effectivePage opts page - 1) * CrudService.effectiveLimit opts limit,
       wq, inc⟩)) ∧
    (r.rows.length : Int) ≤ CrudService.effectiveLimit opts limit := by
  have hb : (0 : Int) ≤ CrudService.effectiveLimit opts limit := by omega
  have hrows : ∀ wq : Option WhereQ,
      ((CrudService.dtoRows opts.dto (Model.findAllRows table
        ⟨CrudService.effectiveLimit opts limit,
         (CrudService.effectivePage opts page - 1) * CrudService.effectiveLimit opts limit,
         wq, inc⟩)).length : Int) ≤ CrudService.effectiveLimit opts limit := by
    intro wq
    rw [dtoRows_length]
    calc ((Model.findAllRows table _).length : Int)
        ≤ ((CrudService.effectiveLimit opts limit).toNat : Int) := by
          exact_mod_cast findAllRows_length_le table _
      _ = CrudService.effectiveLimit opts limit := Int.toNat_of_nonneg hb
  simp only [CrudService.findAll] at hok
  split at hok
  · simp at hok
  · split at hok
    · split at hok
      · simp at hok
      · injection hok with h
        subst h
        exact ⟨rfl, mathCeilDiv_eq_rat_ceil table.length _ hL, ⟨_, rfl⟩, hrows _⟩
    · injection hok with h
      subst h
      exact ⟨rfl, mathCeilDiv_eq_rat_ceil table.length _ hL, ⟨_, rfl⟩, hrows _⟩

/-- C2 witness: limit 5 and page 2 on a seven-row table give count 7, pages
2 and the third through seventh rows capped at five. -/
theorem crudservice_findall_pagination_witness :
    (⟨7, 2, List.replicate 2 [("name", PBVal.v (.str "x"))]⟩ : FindAllResult).count
        = (List.replicate 7 ([("name", PBVal.v (.str "x"))] : Row)).length ∧
    (⟨7, 2, List.replicate 2 [("name", PBVal.v (.str "x"))]⟩ : FindAllResult).pages
        = ⌈((List.replicate 7 ([("name", PBVal.v (.str "x"))] : Row)).length : ℚ) /
            (CrudService.effectiveLimit {} (some 5) : ℚ)⌉ ∧
    (∃ wq, (⟨7, 2, List.replicate 2 [("name", PBVal.v (.str "x"))]⟩ : FindAllResult).rows
        = CrudService.dtoRows ({} : FindAllOptions).dto (Model.findAllRows
            (List.replicate 7 ([("name", PBVal.v (.str "x"))] : Row))
            ⟨CrudService.effectiveLimit {} (some 5),
             (CrudService.effectivePage {} (some 2) - 1) * CrudService.effectiveLimit {} (some 5),
             wq, none⟩)) ∧
    (((⟨7, 2, List.replicate 2 [("name", PBVal.v (.str "x"))]⟩ : FindAllResult).rows.length : Int)
        ≤ CrudService.effectiveLimit {} (some 5)) :=
  crudservice_findall_pagination {} (List.replicate 7 [("name", PBVal.v (.str "x"))])
    (some 5) (some 2) none none none ⟨7, 2, List.replicate 2 [("name", PBVal.v (.str "x"))]⟩
    (by decide) (by decide)

/-- The where-keys loop with a configured whitelist fails exactly at the
first key outside the whitelist, naming that key. -/
theorem checkWhereKeys_first (wl : List String) (w : List (String × JsVal)) :
    checkWhereKeys (some wl) w =
      (match w.find? (fun kv => !(wl.contains kv.1)) with
       | some kv => .error (.api ("Invalid where property " ++ kv.1 ++ ".") 400)
       | none => .ok ()) := by
  induction w with
  | nil => rfl
  | cons kv rest ih =>
    by_cases hmem : kv.1 ∈ wl <;>
      simp [checkWhereKeys, List.find?_cons, hmem, ih]

/-- C4 counterexample: with whereProperties limited to name, a where key
age fails with the message Invalid where property age. - which names the
offending key and does not mention the allowed field name at all, contrary
to the claim that the error names the allowed fields. -/
theorem crudservice_findall_invalidfilter_counterexample :
    CrudService.findAll { whereProperties := some ["name"] } [] (some 5) (some 1) none
        (some [("age", .num 3)]) none =
      .error (.api "Invalid where property age." 400) ∧
    isSubstringOf "name".toList "Invalid where property age.".toList = false := by
  decide

/-- C4 (amended): with whereProperties configured, a where mapping whose
first key outside the whitelist exists makes the call fail with an
ApiRequestError naming that offending key (Invalid where property key);
when every key is whitelisted the call proceeds and the where keys are
spread into the same where fragment that carries the q search filter
(merged, not replaced). -/
theorem crudservice_findall_where_whitelist (opts : FindAllOptions) (wl : List String)
    (table : List Row) (limit page : Option Int) (inc : Option (List IncludeNode))
    (w : List (String × JsVal)) (q : Option String)
    (hwl : opts.whereProperties = some wl)
    (hc : ((match q with | some s => s != "" | none => false) &&
      opts.searchProperties.isNone) = false) :
    (∀ kv, w.find? (fun kv => !(wl.contains kv.1)) = some kv →
      CrudService.findAll opts table limit page q (some w) inc =
        .error (.api ("Invalid where property " ++ kv.1 ++ ".") 400)) ∧
    (∀ s props, w.find? (fun kv => !(wl.contains kv.1)) = none →
      q = some s → s ≠ "" → opts.searchProperties = some props →
      CrudService.findAll opts table limit page q (some w) inc =
        .ok ⟨Model.countRows table,
             mathCeilDiv (Model.countRows table) (CrudService.effectiveLimit opts limit),
             CrudService.dtoRows opts.dto (Model.findAllRows table
               ⟨CrudService.effectiveLimit opts limit,
                (CrudService.effectivePage opts page - 1) * CrudService.effectiveLimit opts limit,
                some ⟨some ⟨props, s⟩, w⟩, inc⟩)⟩) := by
  constructor
  · intro kv hfind
    simp only [CrudService.findAll, hwl, checkWhereKeys_first, hfind]
    split
    · rename_i hcontra
      exact (Bool.false_ne_true (hc ▸ hcontra)).elim
    · rfl
  · intro s props hfind hqs hs hsp
    subst hqs
    simp only [CrudService.findAll, hwl, checkWhereKeys_first, hfind, hsp]
    split
    · rename_i hcontra
      simp at hcontra
    · simp [bne_iff_ne, hs]

/-- C4 witness: the key age outside the whitelist name fails naming age;
with every key whitelisted and q configured, the call returns rows filtered
by both the search filter and the where keys. -/
theorem crudservice_findall_where_whitelist_witness :
    (CrudService.findAll { whereProperties := some ["name"] } [] (some 5) (some 1) none
        (some [("age", JsVal.num 3)]) none =
      .error (.api ("Invalid where property " ++ "age" ++ ".") 400)) ∧
    (CrudService.findAll { searchProperties := some ["name"], whereProperties := some ["name"] }
        [[("name", PBVal.v (.str "Foam"))]] (some 5) (some 1) (some "x")
        (some [("name", JsVal.str "Foam")]) none =
      .ok ⟨Model.countRows [[("name", PBVal.v (.str "Foam"))]],
           mathCeilDiv (Model.countRows [[("name", PBVal.v (.str "Foam"))]])
             (CrudService.effectiveLimit
               { searchProperties := some ["name"], whereProperties := some ["name"] } (some 5)),
           CrudService.dtoRows
             ({ searchProperties := some ["name"], whereProperties := some ["name"] } :
               FindAllOptions).dto
             (Model.findAllRows [[("name", PBVal.v (.str "Foam"))]]
               ⟨CrudService.effectiveLimit
                  { searchProperties := some ["name"], whereProperties := some ["name"] } (some 5),
                (CrudService.effectivePage
                  { searchProperties := some ["name"], whereProperties := some ["name"] } (some 1) - 1) *
                  CrudService.effectiveLimit
                    { searchProperties := some ["name"], whereProperties := some ["name"] } (some 5),
                some ⟨some ⟨["name"], "x"⟩, [("name", JsVal.str "Foam")]⟩, none⟩)⟩) :=
  ⟨(crudservice_findall_where_whitelist { whereProperties := some ["name"] } ["name"] []
      (some 5) (some 1) none [("age", JsVal.num 3)] none rfl (by decide)).1
      ("age", JsVal.num 3) (by decide),
   (crudservice_findall_where_whitelist
      { searchProperties := some ["name"], whereProperties := some ["name"] } ["name"]
      [[("name", PBVal.v (.str "Foam"))]] (some 5) (some 1) none
      [("name", JsVal.str "Foam")] (some "x") rfl (by decide)).2
      "x" ["name"] (by decide) rfl (by decide) rfl⟩

/-- Every single pipeline call leaves the builder input mapping untouched:
each step writes only the output mapping. -/
theorem runStep_inputParams (b : ParamsBuilder) (s : PBStep) (b2 : ParamsBuilder)
    (h : b.runStep s = .ok b2) : b2.inputParams = b.inputParams := by
  cases s with
  | filterProperties properties pfx =>
    simp only [ParamsBuilder.runStep] at h
    injection h with h2
    subst h2
    cases pfx <;> rfl
  | filterStringObjectArray keyName pfx skipIf =>
    simp only [ParamsBuilder.runStep, ParamsBuilder.filterStringObjectArray] at h
    split at h
    · injection h with h2; subst h2; rfl
    · split at h
      · injection h with h2; subst h2; rfl
      · simp at h
  | filterAssociation M associationName skipIf =>
    simp only [ParamsBuilder.runStep, ParamsBuilder.filterAssociation] at h
    split at h
    · injection h with h2; subst h2; rfl
    · split at h
      · injection h with h2; subst h2; rfl
      · simp at h
  | filterAssociations M includeParameter skipIf =>
    simp only [ParamsBuilder.runStep, ParamsBuilder.filterAssociations] at h
    split at h
    · injection h with h2; subst h2; rfl
    · split at h
      · split at h
        · simp at h
        · injection h with h2; subst h2; rfl
      · simp at h

/-- A whole pipeline leaves the builder input mapping untouched. -/
theorem runSteps_inputParams (steps : List PBStep) (b b2 : ParamsBuilder)
    (h : b.runSteps steps = .ok b2) : b2.inputParams = b.inputParams := by
  induction steps generalizing b with
  | nil =>
    simp only [ParamsBuilder.runSteps] at h
    injection h with h2
    subst h2
    rfl
  | cons s rest ih =>
    simp only [ParamsBuilder.runSteps] at h
    cases hs : b.runStep s with
    | error e => rw [hs] at h; simp at h
    | ok b1 =>
      rw [hs] at h
      exact (ih b1 h).trans (runStep_inputParams b s b1 hs)

/-- C10: the ParamsBuilder pipeline (constructor required-property check
followed by any sequence of filterProperties, filterStringObjectArray,
filterAssociation and filterAssociations calls) leaves the input mapping
passed at construction exactly as it was: only the separate output mapping
is written (and build merely returns that output). -/
theorem paramsbuilder_input_frame (params : JsObject) (req : List String)
    (steps : List PBStep) (b2 : ParamsBuilder)
    (h : (ParamsBuilder.mk? params req).bind (fun b => b.runSteps steps) = .ok b2) :
    b2.inputParams = params := by
  cases hmk : ParamsBuilder.mk? params req with
  | error e => rw [hmk] at h; simp [Except.bind] at h
  | ok b0 =>
    rw [hmk] at h
    have hrun : b0.runSteps steps = .ok b2 := h
    have hb0 : b0.inputParams = params := by
      unfold ParamsBuilder.mk? at hmk
      split at hmk
      · simp at hmk
      · injection hmk with h2
        subst h2
        rfl
    exact (runSteps_inputParams steps b0 b2 hrun).trans hb0

/-- C10 witness: a pipeline that copies a property, decodes a key:value
list and resolves an association leaves the input mapping unchanged. -/
theorem paramsbuilder_input_frame_witness :
    (⟨[("name", JsVal.str "Foam"), ("filters", JsVal.str "k:v")],
      [("name", PBVal.v (.str "Foam")), ("where", PBVal.obj [("k", JsVal.str "v")]),
       ("include", PBVal.v (.str "Texture"))]⟩ : ParamsBuilder).inputParams =
      [("name", JsVal.str "Foam"), ("filters", JsVal.str "k:v")] :=
  paramsbuilder_input_frame [("name", JsVal.str "Foam"), ("filters", JsVal.str "k:v")]
    ["name"]
    [.filterProperties ["name"] none, .filterStringObjectArray "filters" "where" false,
     .filterAssociation ⟨"Material".toList, exMaterialAssocs⟩ "Texture" false]
    ⟨[("name", JsVal.str "Foam"), ("filters", JsVal.str "k:v")],
     [("name", PBVal.v (.str "Foam")), ("where", PBVal.obj [("k", JsVal.str "v")]),
      ("include", PBVal.v (.str "Texture"))]⟩
    (by decide)

/-- Decoding an encoded string list gives it back. -/
theorem jsonStrs_map (l : List String) : jsonStrs (l.map Json.str) = some l := by
  induction l with
  | nil => rfl
  | cons s rest ih => simp [jsonStrs, ih]

/-- The authorization options survive the JSON round trip. -/
theorem decode_encode_authz (a : ApiAuthorization) :
    decodeApiAuthorization a.toJson = some a := by
  obtain ⟨s, k, t⟩ := a
  cases s <;> cases k <;> cases t <;> rfl

/-- An auth-only operation option survives the JSON round trip. -/
theorem decode_encode_opauth (o : ApiOpAuth) : decodeApiOpAuth o.toJson = some o := rfl

/-- The create options survive the JSON round trip. -/
theorem decode_encode_create (c : ApiCreateOptions) :
    decodeApiCreateOptions c.toJson = some c := by
  obtain ⟨b, props⟩ := c
  simp [ApiCreateOptions.toJson, decodeApiCreateOptions, jLookup, List.find?,
    jsonOfStrList, jsonToStrList, jsonStrs_map, jsonToBool]

/-- The update options survive the JSON round trip. -/
theorem decode_encode_update (u : ApiUpdateOptions) :
    decodeApiUpdateOptions u.toJson = some u := by
  obtain ⟨b, props, reqd⟩ := u
  cases reqd <;>
    simp [ApiUpdateOptions.toJson, decodeApiUpdateOptions, jLookup, List.find?,
      jsonOfStrList, jsonToStrList, jsonStrs_map, jsonToBool]

/-- The whole options object survives the JSON round trip. -/
theorem decode_encode_options (o : ApiOptions) :
    decodeApiOptions o.toJson = some o := by
  obtain ⟨authz, fnd, fndAll, cre, upd, del⟩ := o
  cases authz <;> cases fnd <;> cases fndAll <;> cases cre <;> cases upd <;> cases del <;>
    simp [ApiOptions.toJson, decodeApiOptions, decodeOptField, jLookup, List.find?,
      optObjField, decode_encode_authz, decode_encode_opauth, decode_encode_create,
      decode_encode_update]

/-- C8: serializing a client operation set (its constructor tuple of server
URL, endpoint, key field name and options) and reconstructing it yields
identical construction data, hence an operation set with identical
operation presence and identical behaviour (same URL building, same
required-property checks, same auth flags). -/
theorem crudapi_tojson_fromjson_roundtrip (d : CrudAPIData) :
    CrudAPI.fromJson (CrudAPI.toJson d) = some d ∧
    (CrudAPI.fromJson (CrudAPI.toJson d)).map CrudAPI.mkAPI = some (CrudAPI.mkAPI d) := by
  have h1 : CrudAPI.fromJson (CrudAPI.toJson d) = some d := by
    obtain ⟨su, ep, fk, o⟩ := d
    simp [CrudAPI.toJson, CrudAPI.fromJson, jLookup, List.find?, decode_encode_options]
  exact ⟨h1, by rw [h1]; rfl⟩

/-! ## Split and join facts for the comma, colon and dot codecs -/

/-- No element of a splitOnP result satisfies the separator predicate. -/
theorem mem_splitOnP_forall {α : Type} (p : α → Bool) (xs : List α) :
    ∀ l ∈ xs.splitOnP p, ∀ x ∈ l, ¬ p x := by
  induction xs with
  | nil =>
    intro l hl
    rw [List.splitOnP_nil] at hl
    simp only [List.mem_singleton] at hl
    subst hl
    simp
  | cons x xs ih =>
    intro l hl
    rw [List.splitOnP_cons] at hl
    by_cases hpx : p x = true
    · rw [if_pos hpx] at hl
      rcases List.mem_cons.mp hl with rfl | hl2
      · simp
      · exact ih l hl2
    · rw [if_neg hpx] at hl
      cases hrec : xs.splitOnP p with
      | nil => exact absurd hrec (List.splitOnP_ne_nil p xs)
      | cons r rs =>
        rw [hrec, List.modifyHead] at hl
        rcases List.mem_cons.mp hl with rfl | hl2
        · intro y hy
          rcases List.mem_cons.mp hy with rfl | hy2
          · exact hpx
          · exact ih r (by rw [hrec]; exact List.mem_cons_self r rs) y hy2
        · exact ih l (by rw [hrec]; exact List.mem_cons_of_mem r hl2)

/-- The separator never occurs inside an element of a splitOn result. -/
theorem mem_splitOn_not_mem (c : Char) (xs l : JStr) (hl : l ∈ xs.splitOn c) :
    c ∉ l := by
  intro hc
  have h2 := mem_splitOnP_forall (fun a => a == c) xs l (by simpa [List.splitOn] using hl) c hc
  simp at h2

/-- splitOn of a separator-free list is that single list. -/
theorem splitOn_eq_single (c : Char) (xs : JStr) (h : c ∉ xs) : xs.splitOn c = [xs] := by
  simp only [List.splitOn]
  exact List.splitOnP_eq_single _ _ (by intro x hx; simp; exact fun he => h (he ▸ hx))

/-- splitOn past a first separator following a separator-free chunk. -/
theorem splitOn_append_first (c : Char) (xs as : JStr) (h : c ∉ xs) :
    (xs ++ c :: as).splitOn c = xs :: as.splitOn c := by
  simp only [List.splitOn]
  exact List.splitOnP_first _ xs (by intro x hx; simp; exact fun he => h (he ▸ hx)) c
    (by simp) as

/-- splitOn never returns an empty list of chunks. -/
theorem splitOn_ne_nil (c : Char) (xs : JStr) : xs.splitOn c ≠ [] := by
  simp only [List.splitOn]
  exact List.splitOnP_ne_nil _ xs

/-- Joining a single chunk with a separator is the chunk. -/
theorem intercalate_char_singleton (c : Char) (l : JStr) :
    List.intercalate [c] [l] = l := by
  simp [List.intercalate]

/-- Joining at least two chunks puts one separator after the first chunk. -/
theorem intercalate_char_cons (c : Char) (l l2 : JStr) (ls : List JStr) :
    List.intercalate [c] (l :: l2 :: ls) = l ++ c :: List.intercalate [c] (l2 :: ls) := by
  simp [List.intercalate, List.intersperse_cons_cons]

/-- A character of a joined list is the separator or comes from a chunk. -/
theorem mem_intercalate_char (c : Char) (a : Char) (ls : List JStr)
    (h : a ∈ List.intercalate [c] ls) : a = c ∨ ∃ l ∈ ls, a ∈ l := by
  induction ls with
  | nil => simp [List.intercalate] at h
  | cons l rest ih =>
    cases rest with
    | nil =>
      rw [intercalate_char_singleton] at h
      exact Or.inr ⟨l, by simp, h⟩
    | cons l2 rest2 =>
      rw [intercalate_char_cons] at h
      rcases List.mem_append.mp h with hin | hin
      · exact Or.inr ⟨l, by simp, hin⟩
      · rcases List.mem_cons.mp hin with rfl | hin2
        · exact Or.inl rfl
        · rcases ih hin2 with hc | ⟨l3, hl3, ha⟩
          · exact Or.inl hc
          · exact Or.inr ⟨l3, by simp [hl3], ha⟩

/-- Assignment of a fresh key appends the pair. -/
theorem jsAssign_append {α : Type} (o : List (String × α)) (k : String) (v : α)
    (h : ∀ p ∈ o, p.1 ≠ k) : jsAssign o k v = o ++ [(k, v)] := by
  unfold jsAssign
  rw [if_neg]
  simp only [List.any_eq_true, beq_iff_eq, not_exists]
  intro p
  simp only [not_and]
  exact h p

/-- A well-formed where entry: non-empty key and value, neither containing
the colon or comma delimiters of the compact encoding. -/
def wherePairOk (kv : String × String) : Bool :=
  kv.1 != "" && kv.2 != "" &&
  kv.1.toList.all (fun c => c != ':' && c != ',') &&
  kv.2.toList.all (fun c => c != ':' && c != ',')

/-- Unpacking of the well-formedness flag. -/
theorem wherePairOk_props (kv : String × String) (h : wherePairOk kv = true) :
    (':' ∉ kv.1.toList ∧ ',' ∉ kv.1.toList) ∧ (':' ∉ kv.2.toList ∧ ',' ∉ kv.2.toList) := by
  simp only [wherePairOk, Bool.and_eq_true, List.all_eq_true, bne_iff_ne] at h
  obtain ⟨⟨⟨_, _⟩, h1⟩, h2⟩ := h
  refine ⟨⟨fun hc => ?_, fun hc => ?_⟩, ⟨fun hc => ?_, fun hc => ?_⟩⟩
  · have := h1 ':' hc; simp at this
  · have := h1 ',' hc; simp at this
  · have := h2 ':' hc; simp at this
  · have := h2 ',' hc; simp at this

/-- String concatenation concatenates the character lists. -/
theorem str_toList_append (a b : String) : (a ++ b).toList = a.toList ++ b.toList :=
  String.data_append a b

/-- The characters of the encoded where string: the key colon value chunks
joined by commas. -/
theorem getWhereString_toList (w : List (String × String)) :
    (CrudAPIUtils.getWhereString w).toList =
      List.intercalate [','] (w.map (fun kv => kv.1.toList ++ ':' :: kv.2.toList)) := by
  induction w with
  | nil => rfl
  | cons kv rest ih =>
    cases rest with
    | nil =>
      show (kv.1 ++ ":" ++ kv.2).toList = _
      simp only [List.map_cons, List.map_nil, intercalate_char_singleton,
        str_toList_append, show (":" : String).toList = [':'] from rfl]
      simp
    | cons kv2 rest2 =>
      show (kv.1 ++ ":" ++ kv.2 ++ "," ++ CrudAPIUtils.getWhereString (kv2 :: rest2)).toList = _
      simp only [List.map_cons, intercalate_char_cons, str_toList_append,
        show (":" : String).toList = [':'] from rfl,
        show ("," : String).toList = [','] from rfl]
      simp only [List.map_cons] at ih
      rw [ih]
      simp [List.append_assoc]

/-- The decoding fold of filterStringObjectArray, run over encoded chunks
with distinct well-formed keys, appends exactly the original entries. -/
theorem decode_fold (w : List (String × String)) (acc : List (String × JsVal))
    (hok : ∀ kv ∈ w, wherePairOk kv = true)
    (hnodup : (w.map Prod.fst).Nodup)
    (hdisj : ∀ kv ∈ w, ∀ p ∈ acc, p.1 ≠ kv.1) :
    (w.map (fun kv => kv.1.toList ++ ':' :: kv.2.toList)).foldl (fun acc item =>
        jsAssign acc (String.mk ((item.splitOn ':').headD []))
          (match (item.splitOn ':').get? 1 with
           | some v => JsVal.str (String.mk v)
           | none => JsVal.undefined)) acc =
      acc ++ w.map (fun kv => (kv.1, JsVal.str kv.2)) := by
  induction w generalizing acc with
  | nil => simp
  | cons kv rest ih =>
    obtain ⟨⟨hk1, _⟩, ⟨hv1, _⟩⟩ := wherePairOk_props kv (hok kv (by simp))
    have hsplit : ((kv.1.toList ++ ':' :: kv.2.toList).splitOn ':') =
        [kv.1.toList, kv.2.toList] := by
      rw [splitOn_append_first ':' _ _ hk1, splitOn_eq_single ':' _ hv1]
    simp only [List.map_cons, List.foldl_cons, hsplit]
    have hstep : jsAssign acc (String.mk ([kv.1.toList, kv.2.toList].headD []))
        (match [kv.1.toList, kv.2.toList].get? 1 with
         | some v => JsVal.str (String.mk v)
         | none => JsVal.undefined) =
        acc ++ [(kv.1, JsVal.str kv.2)] := by
      show jsAssign acc kv.1 (JsVal.str kv.2) = _
      exact jsAssign_append acc kv.1 _ (fun p hp => hdisj kv (by simp) p hp)
    rw [hstep]
    have hnotmem : kv.1 ∉ rest.map Prod.fst := (List.nodup_cons.mp hnodup).1
    have hdisj2 : ∀ kv2 ∈ rest, ∀ p ∈ acc ++ [(kv.1, JsVal.str kv.2)], p.1 ≠ kv2.1 := by
      intro kv2 h2 p hp
      rcases List.mem_append.mp hp with hin | hin
      · exact hdisj kv2 (by simp [h2]) p hin
      · rcases List.mem_singleton.mp hin with rfl
        intro he
        exact hnotmem (he ▸ List.mem_map_of_mem Prod.fst h2)
    rw [ih (acc ++ [(kv.1, JsVal.str kv.2)]) (fun kv2 h2 => hok kv2 (by simp [h2]))
      (List.nodup_cons.mp hnodup).2 hdisj2]
    simp

/-- C9: for a non-empty mapping with distinct keys whose keys and values
are non-empty strings free of colons and commas, decoding the string built
by getWhereString with filterStringObjectArray yields exactly the original
mapping (stored under the destination key, with the input untouched). -/
theorem wherestring_filterstring_roundtrip (w : List (String × String))
    (hne : w ≠ [])
    (hnodup : (w.map Prod.fst).Nodup)
    (hok : ∀ kv ∈ w, wherePairOk kv = true) :
    ParamsBuilder.filterStringObjectArray
        ⟨[("where", .str (CrudAPIUtils.getWhereString w))], []⟩ "where" "filters" false =
      .ok ⟨[("where", .str (CrudAPIUtils.getWhereString w))],
           [("filters", .obj (w.map (fun kv => (kv.1, JsVal.str kv.2))))]⟩ := by
  have harr : (CrudAPIUtils.getWhereString w).toList.splitOn ','
      = w.map (fun kv => kv.1.toList ++ ':' :: kv.2.toList) := by
    rw [getWhereString_toList]
    apply List.splitOn_intercalate
    · intro l hl
      rcases List.mem_map.mp hl with ⟨kv, hkv, rfl⟩
      obtain ⟨⟨_, hk2⟩, ⟨_, hv2⟩⟩ := wherePairOk_props kv (hok kv hkv)
      intro hcmem
      rcases List.mem_append.mp hcmem with h1 | h1
      · exact hk2 h1
      · rcases List.mem_cons.mp h1 with he | h2
        · exact absurd he (by decide)
        · exact hv2 h2
    · simpa using hne
  have hfold := decode_fold w [] hok hnodup (by simp)
  unfold ParamsBuilder.filterStringObjectArray
  show Except.ok (⟨[("where", JsVal.str (CrudAPIUtils.getWhereString w))],
      jsAssign [] "filters" (PBVal.obj
        (((CrudAPIUtils.getWhereString w).toList.splitOn ',').foldl (fun acc item =>
          jsAssign acc (String.mk ((item.splitOn ':').headD []))
            (match (item.splitOn ':').get? 1 with
             | some v => JsVal.str (String.mk v)
             | none => JsVal.undefined)) []))⟩ : ParamsBuilder) = _
  rw [harr, hfold]
  rfl

/-- C9 witness: the repository test vector key1:value1,key2:value2 decodes
back to the mapping it was encoded from. -/
theorem wherestring_filterstring_roundtrip_witness :
    ParamsBuilder.filterStringObjectArray
        ⟨[("where", .str (CrudAPIUtils.getWhereString [("key1", "value1"), ("key2", "value2")]))], []⟩
        "where" "filters" false =
      .ok ⟨[("where", .str (CrudAPIUtils.getWhereString [("key1", "value1"), ("key2", "value2")]))],
           [("filters", .obj ([("key1", "value1"), ("key2", "value2")].map
              (fun kv => (kv.1, JsVal.str kv.2))))]⟩ :=
  wherestring_filterstring_roundtrip [("key1", "value1"), ("key2", "value2")]
    (by decide) (by decide) (by decide)

/-- A character of a chunk occurs in the join of the chunks. -/
theorem mem_intercalate_of_mem_chunk (c a : Char) (ls : List JStr) (l : JStr)
    (hl : l ∈ ls) (ha : a ∈ l) : a ∈ List.intercalate [c] ls := by
  induction ls with
  | nil => simp at hl
  | cons l0 rest ih =>
    cases rest with
    | nil =>
      rw [intercalate_char_singleton]
      rcases List.mem_cons.mp hl with rfl | h2
      · exact ha
      · simp at h2
    | cons l2 rest2 =>
      rw [intercalate_char_cons]
      rcases List.mem_cons.mp hl with rfl | h2
      · exact List.mem_append.mpr (Or.inl ha)
      · exact List.mem_append.mpr (Or.inr (List.mem_cons_of_mem _ (ih h2)))

/-- Every character of a splitOn chunk occurs in the split list. -/
theorem mem_of_mem_splitOn_chunk (c a : Char) (xs l : JStr)
    (hl : l ∈ xs.splitOn c) (ha : a ∈ l) : a ∈ xs := by
  rw [← List.intercalate_splitOn xs c]
  exact mem_intercalate_of_mem_chunk c a _ l hl ha

/-- A successful root lookup names a real association: with non-empty
aliases configured, the looked-up alias is non-empty and the target
registry has non-empty aliases as well. -/
theorem getAssociationRoot_ok (assocs : List RootAssoc) (x : JStr) (t : TargetModel)
    (hA : aliasesNonEmpty assocs = true)
    (h : getAssociationRoot assocs x = .ok t) : x ≠ [] := by
  unfold getAssociationRoot at h
  cases hf : assocs.find? (fun a => a.as == x) with
  | none => rw [hf] at h; simp at h
  | some a =>
    rw [hf] at h
    have hax : a.as = x := by simpa using List.find?_some hf
    have hmem := List.mem_of_find?_eq_some hf
    have hA2 := List.all_eq_true.mp hA a hmem
    simp only [Bool.and_eq_true] at hA2
    intro hx
    rw [← hax] at hx
    simp [hx] at hA2

/-- mapMEx succeeds on a non-empty list with a non-empty result. -/
theorem mapMEx_ok_ne_nil {α β : Type} (f : α → Except JsErr β) (l : List α)
    (r : List β) (hl : l ≠ []) (h : mapMEx f l = .ok r) : r ≠ [] := by
  cases l with
  | nil => exact absurd rfl hl
  | cons x xs =>
    unfold mapMEx at h
    cases hfx : f x with
    | error e => rw [hfx] at h; simp at h
    | ok y =>
      rw [hfx] at h
      cases hrec : mapMEx f xs with
      | error e => rw [hrec] at h; simp at h
      | ok ys => rw [hrec] at h; injection h with h2; subst h2; simp

/-- Resolving sub-association names gives nodes whose as fields are exactly
those names, in order. -/
theorem mapMEx_resolveSub_as (sassocs : List SubAssoc) (nms : List JStr)
    (subs : List SubIncludeNode)
    (h : mapMEx (resolveSubName sassocs) nms = .ok subs) :
    subs.map SubIncludeNode.as = nms := by
  induction nms generalizing subs with
  | nil =>
    unfold mapMEx at h
    injection h with h2
    subst h2
    rfl
  | cons nm rest ih =>
    unfold mapMEx at h
    cases hr : resolveSubName sassocs nm with
    | error e => rw [hr] at h; simp at h
    | ok y =>
      rw [hr] at h
      cases hrec : mapMEx (resolveSubName sassocs) rest with
      | error e => rw [hrec] at h; simp at h
      | ok ys =>
        rw [hrec] at h
        injection h with h2
        subst h2
        have hy : y.as = nm := by
          unfold resolveSubName at hr
          cases hg : getAssociationSub sassocs nm with
          | error e => rw [hg] at hr; simp at hr
          | ok tgt => rw [hg] at hr; injection hr with h3; subst h3; rfl
        simp [hy, ih ys hrec]

/-- One parsed segment round-trips: its client encoding is comma-free,
its model name is non-empty, and re-parsing the encoding yields the same
node. -/
theorem parse_encode_segment (assocs : List RootAssoc) (seg : JStr) (n : IncludeNode)
    (hA : aliasesNonEmpty assocs = true)
    (hseg : ',' ∉ seg)
    (h : parseIncludeSegment assocs seg = .ok n) :
    n.toClient.model ≠ [] ∧ ',' ∉ encodeEntry n.toClient ∧
    parseIncludeSegment assocs (encodeEntry n.toClient) = .ok n := by
  have h0 := h
  unfold parseIncludeSegment at h
  cases hsp : seg.splitOn '.' with
  | nil => rw [hsp] at h; simp at h
  | cons p0 ps =>
    cases ps with
    | nil =>
      rw [hsp] at h
      cases hga : getAssociationRoot assocs seg with
      | error e => rw [hga] at h; simp at h
      | ok t =>
        rw [hga] at h
        injection h with h2
        subst h2
        have hne := getAssociationRoot_ok assocs seg t hA hga
        have henc : encodeEntry (IncludeNode.toClient ⟨t, seg, none⟩) = seg := by
          simp [encodeEntry, IncludeNode.toClient]
        refine ⟨?_, ?_, ?_⟩
        · simpa [IncludeNode.toClient] using hne
        · rw [henc]; exact hseg
        · rw [henc]; exact h0
    | cons p1 ps2 =>
      rw [hsp] at h
      have h1 : (match getAssociationRoot assocs p0 with
          | Except.error e => Except.error e
          | Except.ok t =>
            match mapMEx (resolveSubName t.associations) (p1.splitOn ':') with
            | Except.error e => Except.error e
            | Except.ok subs =>
              Except.ok { model := t, as := p0, incl := some subs }) = Except.ok n := h
      cases hga : getAssociationRoot assocs p0 with
      | error e => rw [hga] at h1; simp at h1
      | ok t =>
        rw [hga] at h1
        have h3 : (match mapMEx (resolveSubName t.associations) (p1.splitOn ':') with
            | Except.error e => Except.error e
            | Except.ok subs =>
              Except.ok { model := t, as := p0, incl := some subs }) = Except.ok n := h1
        cases hmm2 : mapMEx (resolveSubName t.associations) (p1.splitOn ':') with
        | error e => rw [hmm2] at h3; simp at h3
        | ok subs =>
          rw [hmm2] at h3
          injection h3 with h2
          subst h2
          have hnms : subs.map SubIncludeNode.as = p1.splitOn ':' :=
            mapMEx_resolveSub_as _ _ _ hmm2
          have hp0mem : p0 ∈ seg.splitOn '.' := by rw [hsp]; simp
          have hp1mem : p1 ∈ seg.splitOn '.' := by rw [hsp]; simp
          have hdot0 : '.' ∉ p0 := mem_splitOn_not_mem '.' seg p0 hp0mem
          have hdot1 : '.' ∉ p1 := mem_splitOn_not_mem '.' seg p1 hp1mem
          have hsub0 : ∀ ch ∈ p0, ch ∈ seg := fun ch hc =>
            mem_of_mem_splitOn_chunk '.' ch seg p0 hp0mem hc
          have hsub1 : ∀ ch ∈ p1, ch ∈ seg := fun ch hc =>
            mem_of_mem_splitOn_chunk '.' ch seg p1 hp1mem hc
          have hp0ne := getAssociationRoot_ok assocs p0 t hA hga
          have henc : encodeEntry (IncludeNode.toClient ⟨t, p0, some subs⟩)
              = p0 ++ '.' :: p1 := by
            show p0 ++ '.' :: List.intercalate [':'] (subs.map (fun s => s.as)) =
              p0 ++ '.' :: p1
            rw [show subs.map (fun s => s.as) = subs.map SubIncludeNode.as from rfl,
              hnms, List.intercalate_splitOn]
          refine ⟨?_, ?_, ?_⟩
          · simpa [IncludeNode.toClient] using hp0ne
          · rw [henc]
            intro hcm
            rcases List.mem_append.mp hcm with hin | hin
            · exact hseg (hsub0 ',' hin)
            · rcases List.mem_cons.mp hin with he | hin2
              · exact absurd he (by decide)
              · exact hseg (hsub1 ',' hin2)
          · rw [henc]
            unfold parseIncludeSegment
            rw [splitOn_append_first '.' p0 p1 hdot0, splitOn_eq_single '.' p1 hdot1]
            simp only [hga, hmm2]

/-- getIncludeString on entries with non-empty model names succeeds and
produces the comma join of the per-entry encodings. -/
theorem getIncludeString_ok (l : List ClientInclude) (h : ∀ e ∈ l, e.model ≠ []) :
    CrudAPIUtils.getIncludeString l = .ok (List.intercalate [','] (l.map encodeEntry)) := by
  induction l with
  | nil => rfl
  | cons e rest ih =>
    have hm : e.model.isEmpty = false := by
      rcases hme : e.model with _ | ⟨c, cs⟩
      · exact absurd hme (h e (by simp))
      · rfl
    unfold CrudAPIUtils.getIncludeString
    cases rest with
    | nil =>
      simp only [hm, Bool.false_eq_true, if_false, List.map_cons, List.map_nil,
        intercalate_char_singleton]
    | cons r rs =>
      simp only [hm, Bool.false_eq_true, if_false]
      rw [ih (fun e2 he2 => h e2 (by simp [he2]))]
      simp only [List.map_cons, intercalate_char_cons]

/-- The segment round trip lifted over a whole parsed list. -/
theorem mapMEx_parse_encode (assocs : List RootAssoc)
    (hA : aliasesNonEmpty assocs = true) (segs : List JStr) (ts : List IncludeNode)
    (hsegs : ∀ seg ∈ segs, ',' ∉ seg)
    (h : mapMEx (parseIncludeSegment assocs) segs = .ok ts) :
    (∀ n ∈ ts, n.toClient.model ≠ []) ∧
    (∀ n ∈ ts, ',' ∉ encodeEntry n.toClient) ∧
    mapMEx (parseIncludeSegment assocs)
      (ts.map (fun n => encodeEntry n.toClient)) = .ok ts := by
  induction segs generalizing ts with
  | nil =>
    unfold mapMEx at h
    injection h with h2
    subst h2
    exact ⟨by simp, by simp, rfl⟩
  | cons seg rest ih =>
    unfold mapMEx at h
    cases hps : parseIncludeSegment assocs seg with
    | error e => rw [hps] at h; simp at h
    | ok n =>
      rw [hps] at h
      cases hrec : mapMEx (parseIncludeSegment assocs) rest with
      | error e => rw [hrec] at h; simp at h
      | ok ns =>
        rw [hrec] at h
        injection h with h2
        subst h2
        obtain ⟨hm, hcomma, hre⟩ :=
          parse_encode_segment assocs seg n hA (hsegs seg (by simp)) hps
        obtain ⟨ihm, ihc, ihre⟩ := ih ns (fun s2 hs2 => hsegs s2 (by simp [hs2])) hrec
        refine ⟨?_, ?_, ?_⟩
        · intro n2 hn2
          rcases List.mem_cons.mp hn2 with rfl | h3
          · exact hm
          · exact ihm n2 h3
        · intro n2 hn2
          rcases List.mem_cons.mp hn2 with rfl | h3
          · exact hcomma
          · exact ihc n2 h3
        · show mapMEx (parseIncludeSegment assocs)
            (encodeEntry n.toClient :: ns.map (fun n2 => encodeEntry n2.toClient)) = _
          unfold mapMEx
          rw [hre, ihre]

/-- C1: every resolved inclusion tree in the image of the association-path
resolver round-trips through the client string encoding: encoding the tree
with getIncludeString (over the client view of the tree, which names each
node by its alias) succeeds, and parsing the encoded string against the
same association registry yields the tree again. Requires the registry to
carry non-empty alias names, as every real Sequelize registry does. -/
theorem include_parse_encode_roundtrip (assocs : List RootAssoc) (s : JStr)
    (ts : List IncludeNode)
    (hA : aliasesNonEmpty assocs = true)
    (hp : filterAssociationsList assocs s = .ok ts) :
    CrudAPIUtils.getIncludeString (ts.map IncludeNode.toClient) =
      .ok (List.intercalate [','] (ts.map (fun n => encodeEntry n.toClient))) ∧
    filterAssociationsList assocs
      (List.intercalate [','] (ts.map (fun n => encodeEntry n.toClient))) = .ok ts := by
  unfold filterAssociationsList at hp
  obtain ⟨hm, hc, hre⟩ := mapMEx_parse_encode assocs hA (s.splitOn ',') ts
    (fun seg hs => mem_splitOn_not_mem ',' s seg hs) hp
  constructor
  · have henc := getIncludeString_ok (ts.map IncludeNode.toClient) (by
      intro e he
      rcases List.mem_map.mp he with ⟨n, hn, rfl⟩
      exact hm n hn)
    rw [henc, List.map_map]
    rfl
  · have hts : ts ≠ [] := mapMEx_ok_ne_nil _ _ _ (splitOn_ne_nil ',' s) hp
    unfold filterAssociationsList
    rw [List.splitOn_intercalate (ts.map (fun n => encodeEntry n.toClient)) ','
      (by
        intro l hl
        rcases List.mem_map.mp hl with ⟨n, hn, rfl⟩
        exact hc n hn)
      (by simpa using hts)]
    exact hre

/-- C1 witness: the test-suite path Texture.Image:TextureType,Image over
the Material registry parses, encodes back to the same string, and
re-parses to the same tree. -/
theorem include_parse_encode_roundtrip_witness :
    CrudAPIUtils.getIncludeString
      (([⟨exTexture, "Texture".toList,
          some [⟨"Image".toList, "Image".toList⟩,
                ⟨"TextureType".toList, "TextureType".toList⟩]⟩,
         ⟨exImage, "Image".toList, none⟩] : List IncludeNode).map IncludeNode.toClient) =
      .ok (List.intercalate [',']
        (([⟨exTexture, "Texture".toList,
            some [⟨"Image".toList, "Image".toList⟩,
                  ⟨"TextureType".toList, "TextureType".toList⟩]⟩,
           ⟨exImage, "Image".toList, none⟩] : List IncludeNode).map
          (fun n => encodeEntry n.toClient))) ∧
    filterAssociationsList exMaterialAssocs
      (List.intercalate [',']
        (([⟨exTexture, "Texture".toList,
            some [⟨"Image".toList, "Image".toList⟩,
                  ⟨"TextureType".toList, "TextureType".toList⟩]⟩,
           ⟨exImage, "Image".toList, none⟩] : List IncludeNode).map
          (fun n => encodeEntry n.toClient))) =
      .ok [⟨exTexture, "Texture".toList,
            some [⟨"Image".toList, "Image".toList⟩,
                  ⟨"TextureType".toList, "TextureType".toList⟩]⟩,
           ⟨exImage, "Image".toList, none⟩] :=
  include_parse_encode_roundtrip exMaterialAssocs
    "Texture.Image:TextureType,Image".toList
    [⟨exTexture, "Texture".toList,
      some [⟨"Image".toList, "Image".toList⟩,
            ⟨"TextureType".toList, "TextureType".toList⟩]⟩,
     ⟨exImage, "Image".toList, none⟩]
    (by decide) (by decide)
